import Mathlib

/-!
Verification of `github_needs_work.py`: a shallow embedding of its
time handling, rate-limited HTTP getter, pagination, pull-request
cache, atomic save, and filesystem lock, with theorems settling the
specification claims.

Modelling conventions: machine time (`time.time()`, rate-limit reset
epochs) is natural-number seconds; `datetime.datetime` values with zero
microseconds are the structure `DT`; JSON payloads of secondary fetches
are opaque items; loops are given explicit fuel.
-/

namespace GhNW

/-- A `datetime.datetime` value with zero microseconds. -/
structure DT where
  year : Nat
  month : Nat
  day : Nat
  hour : Nat
  minute : Nat
  second : Nat
deriving DecidableEq, Repr

/-- Gregorian leap-year rule used by `datetime`. -/
def isLeap (y : Nat) : Bool :=
  (y % 4 == 0 && y % 100 != 0) || y % 400 == 0

/-- Number of days in a month, as validated by the `datetime` constructor. -/
def daysInMonth (y m : Nat) : Nat :=
  if m = 2 then (if isLeap y then 29 else 28)
  else if m = 4 ∨ m = 6 ∨ m = 9 ∨ m = 11 then 30
  else 31

/-- The range checks enforced by the `datetime.datetime` constructor
(`MINYEAR = 1`, `MAXYEAR = 9999`). Every Python `datetime` object
satisfies these by construction. -/
def DT.validB (d : DT) : Bool :=
  decide (1 ≤ d.year) && decide (d.year ≤ 9999) &&
  decide (1 ≤ d.month) && decide (d.month ≤ 12) &&
  decide (1 ≤ d.day) && decide (d.day ≤ daysInMonth d.year d.month) &&
  decide (d.hour ≤ 23) && decide (d.minute ≤ 59) && decide (d.second ≤ 59)

/-- Chronological key: strictly monotone in lexicographic field order on
valid dates, so `dtKey a ≤ dtKey b` is the `datetime` ordering. -/
def dtKey (d : DT) : Nat :=
  ((((d.year * 13 + d.month) * 32 + d.day) * 24 + d.hour) * 60 + d.minute) * 60
    + d.second

/-- The ASCII digit character for a value `0`–`9`. -/
def dChar : Nat → Char
  | 0 => '0' | 1 => '1' | 2 => '2' | 3 => '3' | 4 => '4'
  | 5 => '5' | 6 => '6' | 7 => '7' | 8 => '8' | _ => '9'

/-- Zero-padded two-digit rendering (`strftime` `%m`, `%d`, `%H`, `%M`, `%S`). -/
def pad2 (n : Nat) : List Char := [dChar (n / 10), dChar (n % 10)]

/-- Zero-padded four-digit rendering (`strftime` `%Y`). -/
def pad4 (n : Nat) : List Char :=
  [dChar (n / 1000), dChar (n / 100 % 10), dChar (n / 10 % 10), dChar (n % 10)]

/-- Character list produced by `d.strftime('%Y-%m-%dT%H:%M:%SZ')`. -/
def fmtChars (d : DT) : List Char :=
  pad4 d.year ++ '-' :: (pad2 d.month ++ '-' :: (pad2 d.day ++
    'T' :: (pad2 d.hour ++ ':' :: (pad2 d.minute ++ ':' :: (pad2 d.second ++ ['Z'])))))

/-- `format_time` (src line 207): `d.strftime('%Y-%m-%dT%H:%M:%SZ')`. -/
def format_time (d : DT) : String := String.mk (fmtChars d)

/-- Numeric value of an ASCII digit character, `none` otherwise. -/
def digitVal (c : Char) : Option Nat :=
  if c.isDigit then some (c.toNat - 48) else none

/-- CPython `_strptime` numeric field matcher: greedily take two digits when
their value lies in `[lo2, hi2]` (the two-digit alternatives of the regex),
otherwise one digit of value at least `lo1` (the one-digit alternative). -/
def parseNum (lo2 hi2 lo1 : Nat) : List Char → Option (Nat × List Char)
  | c1 :: c2 :: rest =>
    match digitVal c1, digitVal c2 with
    | some a, some b =>
      let v := 10 * a + b
      if lo2 ≤ v ∧ v ≤ hi2 then some (v, rest)
      else if lo1 ≤ a then some (a, c2 :: rest)
      else none
    | some a, none => if lo1 ≤ a then some (a, c2 :: rest) else none
    | none, _ => none
  | [c1] =>
    match digitVal c1 with
    | some a => if lo1 ≤ a then some (a, []) else none
    | none => none
  | [] => none

/-- CPython `_strptime` `%Y` matcher: exactly four digits. -/
def parseY4 : List Char → Option (Nat × List Char)
  | c1 :: c2 :: c3 :: c4 :: rest =>
    match digitVal c1, digitVal c2, digitVal c3, digitVal c4 with
    | some a, some b, some c, some e => some (1000 * a + 100 * b + 10 * c + e, rest)
    | _, _, _, _ => none
  | _ => none

/-- Literal character matcher of `strptime`. -/
def lit (c : Char) : List Char → Option (List Char)
  | x :: rest => if x = c then some rest else none
  | [] => none

/-- `datetime.strptime(s, '%Y-%m-%dT%H:%M:%SZ')`: regex-style field
matching (CPython `_strptime`), a full-input-consumed check, then the
`datetime` constructor's range validation. -/
def strptimeZ (cs : List Char) : Option DT :=
  (parseY4 cs).bind fun yc =>
  (lit '-' yc.2).bind fun cs1 =>
  (parseNum 1 12 1 cs1).bind fun moc =>
  (lit '-' moc.2).bind fun cs2 =>
  (parseNum 1 31 1 cs2).bind fun dac =>
  (lit 'T' dac.2).bind fun cs3 =>
  (parseNum 0 23 0 cs3).bind fun hhc =>
  (lit ':' hhc.2).bind fun cs4 =>
  (parseNum 0 59 0 cs4).bind fun mic =>
  (lit ':' mic.2).bind fun cs5 =>
  (parseNum 0 61 0 cs5).bind fun sec =>
  (lit 'Z' sec.2).bind fun cs6 =>
    if cs6 = [] then
      let d : DT := ⟨yc.1, moc.1, dac.1, hhc.1, mic.1, sec.1⟩
      if d.validB then some d else none
    else none

/-- `parse_time` (src lines 211–249). Modelled: the UTC branch
(lines 215–216), taken exactly when the input ends in `'Z'`. The later
branches (US format, numeric timezone offsets, dash-separated fallbacks,
lines 218–249) handle strings that never end in `'Z'`; no string produced
by `format_time` or stored in the cache reaches them, and a failed parse
(`ValueError`) is `none`. -/
def parse_time (s : String) : Option DT :=
  if s.data.getLast? = some 'Z' then strptimeZ s.data else none

/-! ## GithubGet: rate limiting and fetching (src lines 320–412) -/

/-- Rate-limit bookkeeping of `GithubGet`: `ratelimit_remaining` and
`ratelimit_reset` (the reset epoch, in seconds). -/
structure GState where
  remaining : Nat
  reset : Nat
deriving DecidableEq, Repr

/-- One HTTP response as seen by `GithubGet.get`: status code, the
`X-RateLimit-Remaining` / `X-RateLimit-Reset` headers when present, the
next-page URL extracted from the `Link` header (`rel="next"`), and the
decoded JSON body — `none` when the transport raised `HTTPError`
(src lines 383–386), in which case only code and headers are available. -/
structure Resp (α : Type) where
  code : Nat
  remaining : Option Nat
  reset : Option Nat
  next : Option String
  body : Option α
deriving DecidableEq, Repr

/-- Header observation (src lines 399–402): take the latest header values
verbatim; absent headers leave the previous state unchanged. -/
def observe (st : GState) (r : Resp α) : GState :=
  { remaining := r.remaining.getD st.remaining,
    reset := r.reset.getD st.reset }

/-- Outcome of one iteration of the `while True` body of `get`
(src lines 373–412): return, loop back (`continue`), or raise. -/
inductive IterOut (α : Type) where
  | done (data : α) (next : Option String)
  | retry
  | fatal
deriving DecidableEq, Repr

/-- One iteration of the fetch loop of `get` (src lines 373–412), given the
response `r` the attempt produced: statuses other than 200/403 raise before
headers are read; otherwise headers update the rate-limit state, and a
non-200 status or missing body retries when the observed remaining quota is
zero and raises otherwise. -/
def getIter (st : GState) (r : Resp α) : GState × IterOut α :=
  if r.code ≠ 200 ∧ r.code ≠ 403 then (st, .fatal)
  else
    let st2 := observe st r
    match r.body with
    | some d =>
      if r.code = 200 then (st2, .done d r.next)
      else if st2.remaining = 0 then (st2, .retry) else (st2, .fatal)
    | none => if st2.remaining = 0 then (st2, .retry) else (st2, .fatal)

/-- Result of `get`: the returned `(data, info)` pair (with the next-page
link from `info`) or a raised `RuntimeError`. -/
inductive GetOut (α : Type) where
  | success (data : α) (next : Option String) (st : GState)
  | fatal (st : GState)
deriving DecidableEq, Repr

/-- The retry loop of `get` over the stream of responses the server gives
to successive attempts at the same URL; `none` when the stream runs out
while the loop would continue. -/
def getRun : GState → List (Resp α) → Option (GetOut α)
  | _, [] => none
  | st, r :: rs =>
    match getIter st r with
    | (st2, .done d n) => some (.success d n st2)
    | (st2, .fatal) => some (.fatal st2)
    | (st2, .retry) => getRun st2 rs

/-- The rate-limit wait loop of `get` (src lines 363–371), with fuel:
while the remaining quota is zero and the reset epoch is in the future,
compute the wait `s` to five seconds past the reset epoch, emit a progress
notification, and sleep `min (5*60) s`. Returns the time at which the loop
exits and the list of `(recomputed wait, sleep duration)` pairs, one per
notification/sleep. -/
def throttleAux (remaining reset : Nat) : Nat → Nat → Nat × List (Nat × Nat)
  | 0, now => (now, [])
  | fuel + 1, now =>
    if remaining = 0 ∧ now < reset then
      let s := reset + 5 - now
      if s = 0 then (now, [])
      else
        let step := min (5 * 60) s
        let r := throttleAux remaining reset fuel (now + step)
        (r.1, (s, step) :: r.2)
    else (now, [])

/-- The wait loop with its fuel instantiated: `reset + 5 - now` bounds the
number of iterations since every sleep advances time by at least one second. -/
def throttle (remaining reset now : Nat) : Nat × List (Nat × Nat) :=
  throttleAux remaining reset (reset + 5 - now) now

/-- `get` with the virtual clock threaded through: each attempt first runs
the wait loop, then issues the request at the resulting time. Returns the
times at which HTTP requests are issued, and the outcome (`none` when the
response stream runs out). -/
def getTimed : GState → Nat → List (Resp α) → List Nat × Option (GetOut α)
  | _, _, [] => ([], none)
  | st, now, r :: rs =>
    let t := (throttle st.remaining st.reset now).1
    match getIter st r with
    | (st2, .done d n) => ([t], some (.success d n st2))
    | (st2, .fatal) => ([t], some (.fatal st2))
    | (st2, .retry) =>
      let rest := getTimed st2 t rs
      (t :: rest.1, rest.2)

/-- Python truthiness of the `while url:` condition of `get_multipage`
(src line 354): the loop continues only for a present, non-empty URL. -/
def urlCont : Option String → Option String
  | none => none
  | some u => if u = "" then none else some u

/-- `get_multipage` (src lines 352–358), with fuel bounding the number of
pages: follow `Next` links, concatenating page bodies in order. The
environment `env` maps a URL to the response stream `get` consumes there.
`none` when a page fetch fails, raises, or fuel runs out. -/
def get_multipage (env : String → List (Resp (List α))) :
    Nat → GState → Option String → Option (List α × GState)
  | fuel, st, url =>
    match urlCont url with
    | none => some ([], st)
    | some u =>
      match fuel with
      | 0 => none
      | fuel + 1 =>
        match getRun st (env u) with
        | some (.success data next st2) =>
          match get_multipage env fuel st2 next with
          | some (rest, st3) => some (data ++ rest, st3)
          | none => none
        | _ => none

/-! ## PullCache (src lines 252–317) -/

/-- Opaque payload of a secondary fetch (events, commits, reviews). -/
abbrev Item := Nat

/-- One record of the listing endpoint, as used by the code: its number,
Python truthiness of the `pull_request` marker (`pull.get('pull_request')`),
its `state`, the URLs used for secondary fetches, the three attached
sub-collections (absent until attached), and the remaining fields of the
JSON object, opaque to the core. -/
structure Pull where
  number : Nat
  is_pr : Bool
  state : String
  events_url : String
  pr_url : String
  events : Option (List Item) := none
  commits : Option (List Item) := none
  reviews : Option (List Item) := none
  extra : List (String × String) := []
deriving DecidableEq, Repr

/-- The cache dictionary: `last_updated` and `pulls`, each possibly absent
before `setdefault` runs. `pulls` is a JSON-object/`dict`: an association
list with unique keys, insertion-ordered. -/
structure Cache where
  last_updated : Option String := none
  pulls : Option (List (String × Pull)) := none
deriving DecidableEq, Repr

/-- `dict` lookup on the association-list model. -/
def dictLookup (m : List (String × Pull)) (k : String) : Option Pull :=
  match m with
  | [] => none
  | kv :: rest => if kv.1 = k then some kv.2 else dictLookup rest k

/-- `pulls[k] = pull` (src line 284): replace in place when the key exists
(Python dicts keep the original position), append otherwise. -/
def dictInsert (m : List (String × Pull)) (k : String) (v : Pull) :
    List (String × Pull) :=
  match m with
  | [] => [(k, v)]
  | kv :: rest => if kv.1 = k then (k, v) :: rest else kv :: dictInsert rest k v

/-- The listing URL built by `_get` (src lines 287–288). -/
def listUrl (project : String) (since : DT) : String :=
  "https://api.github.com/repos/" ++ project ++
    "/issues?sort=updated&direction=desc&since=" ++ format_time since ++
    "&state=all"

/-- A plain 200 response carrying `body` and the given next-page link, with
no rate-limit headers. -/
def respOk {α : Type} (body : α) (next : Option String) : Resp α :=
  ⟨200, none, none, next, some body⟩

/-- The network environment of one run: for each URL, the stream of
responses successive attempts of `get` receive — pages of the listing
endpoint carry lists of records, secondary endpoints carry opaque items. -/
structure Env where
  pages : String → List (Resp (List Pull))
  subs : String → List (Resp (List Item))

/-- The secondary-fetch loop of `_get` (src lines 293–307): records whose
`state` is not `'open'` are skipped (`continue`); for the others the event
history, commit list and review list are fetched (in that order, threading
the rate-limit state) and attached onto the record in place. -/
def attachSubs (env : Env) : GState → List Pull → Option (List Pull × GState)
  | st, [] => some ([], st)
  | st, p :: ps =>
    if p.state ≠ "open" then
      match attachSubs env st ps with
      | some (ps2, st2) => some (p :: ps2, st2)
      | none => none
    else
      match getRun st (env.subs p.events_url) with
      | some (.success ev _ st1) =>
        match getRun st1 (env.subs (p.pr_url ++ "/commits")) with
        | some (.success cm _ st2) =>
          match getRun st2 (env.subs (p.pr_url ++ "/reviews")) with
          | some (.success rv _ st3) =>
            let p2 := { p with events := some ev, commits := some cm,
                               reviews := some rv }
            match attachSubs env st3 ps with
            | some (ps2, st4) => some (p2 :: ps2, st4)
            | none => none
          | _ => none
        | _ => none
      | _ => none

/-- `PullCache._get` (src lines 286–308): fetch all pages of the listing
endpoint since the watermark, keep only items whose `pull_request` marker
is truthy, then run the secondary-fetch loop. -/
def pc_get (env : Env) (project : String) (st : GState) (since : DT)
    (fuel : Nat) : Option (List Pull × GState) :=
  match get_multipage env.pages fuel st (some (listUrl project since)) with
  | some (data, st2) => attachSubs env st2 (data.filter (fun p => p.is_pr))
  | none => none

/-- `PullCache.update` (src lines 269–284): apply the `setdefault`s, parse
the stored watermark, capture `new_time = utcnow()` (the parameter `now`)
before the fetch, fetch everything modified since the old watermark, store
the formatted new watermark, and merge each fetched record into `pulls`
keyed by the string form of its number. `none` models a raised exception. -/
def update (project : String) (env : Env) (fuel : Nat) (now : DT) (c : Cache)
    (st : GState) : Option (Cache × GState) :=
  let lu := c.last_updated.getD "1970-1-1T00:00:00Z"
  let pulls0 := c.pulls.getD []
  match parse_time lu with
  | none => none
  | some prev =>
    match pc_get env project st prev fuel with
    | none => none
    | some (new_pulls, st2) =>
      let pulls1 := new_pulls.foldl
        (fun acc p => dictInsert acc (toString p.number) p) pulls0
      some ({ last_updated := some (format_time now), pulls := some pulls1 },
            st2)

/-! ## PullCache.save (src lines 310–317) -/

/-- A directory’s files: path to content. -/
abbrev FileSys := List (String × String)

def fsLookup (fs : FileSys) (k : String) : Option String :=
  match fs with
  | [] => none
  | kv :: rest => if kv.1 = k then some kv.2 else fsLookup rest k

def fsSet (fs : FileSys) (k v : String) : FileSys :=
  match fs with
  | [] => [(k, v)]
  | kv :: rest => if kv.1 = k then (k, v) :: rest else kv :: fsSet rest k v

def fsRemove (fs : FileSys) (k : String) : FileSys :=
  fs.filter (fun kv => kv.1 ≠ k)

/-- `os.rename(tmp, target)`: atomic replace. -/
def fsRename (fs : FileSys) (tmp target : String) : FileSys :=
  match fsLookup fs tmp with
  | none => fs
  | some content => fsSet (fsRemove fs tmp) target content

/-- The temporary path produced by `tempfile.mkstemp` in `save`
(src lines 312–313): same directory as the target, named from the target's
base name plus the `.new-` marker and a fresh random suffix. -/
def tmpName (target sfx : String) : String := target ++ ".new-" ++ sfx

/-- Injected failure points of `save`: an exception while writing the
serialized snapshot (leaving `k` characters written), or an exception after
the write completes but before the rename. -/
inductive FailPoint where
  | duringWrite (k : Nat)
  | beforeRename
deriving DecidableEq, Repr

/-- `PullCache.save` (src lines 310–317) over the filesystem model:
create the empty temporary file, write the serialized snapshot `content`
into it, and rename it over the target. `fail = some fp` injects a failure;
the result is the final filesystem and whether the call returned normally
(`false` models the exception propagating to the caller). -/
def save (fs : FileSys) (target sfx content : String)
    (fail : Option FailPoint) : FileSys × Bool :=
  let tmp := tmpName target sfx
  let fs1 := fsSet fs tmp ""
  match fail with
  | some (.duringWrite k) => (fsSet fs1 tmp (content.take k), false)
  | some .beforeRename => (fsSet fs1 tmp content, false)
  | none => (fsRename (fsSet fs1 tmp content) tmp target, true)

/-! ## LockFile (src lines 415–467) -/

/-- The lock namespace of the filesystem: symlink path to symlink target
(the text the owning process wrote, `repr(pid)`). -/
abbrev LinkSys := List (String × String)

def lsLookup (m : LinkSys) (k : String) : Option String :=
  match m with
  | [] => none
  | kv :: rest => if kv.1 = k then some kv.2 else lsLookup rest k

def lsRemove (m : LinkSys) (k : String) : LinkSys :=
  m.filter (fun kv => kv.1 ≠ k)

def lsAdd (m : LinkSys) (k v : String) : LinkSys := m ++ [(k, v)]

/-- `repr(self.pid)` written as the symlink target (src line 449). -/
def reprPid (pid : Nat) : String := toString pid

/-- In-process state of a `LockFile`: its path, the owner pid captured at
construction, and the reentrancy counter. -/
structure LockSt where
  filename : String
  pid : Nat
  count : Nat
deriving DecidableEq, Repr

/-- Filesystem operations a lock call performs, in order. -/
inductive FsOp where
  | symlink (path target : String)
  | unlink (path : String)
deriving DecidableEq, Repr

/-- `LockFile.release` (src lines 461–467): with the counter at one, remove
the filesystem entry if it is a link and drop the counter to zero; with the
counter below one, raise `RuntimeError` (`none`: state and filesystem
untouched); otherwise just decrement. -/
def lfRelease (ls : LockSt) (m : LinkSys) :
    Option (LockSt × LinkSys × List FsOp) :=
  if ls.count = 1 then
    match lsLookup m ls.filename with
    | some _ =>
      some ({ ls with count := 0 }, lsRemove m ls.filename,
            [.unlink ls.filename])
    | none => some ({ ls with count := 0 }, m, [])
  else if ls.count < 1 then none
  else some ({ ls with count := ls.count - 1 }, m, [])

/-- `LockFile.acquire` (src lines 429–459), with fuel bounding retry loop
iterations and nested sub-lock acquisitions. A held lock (counter ≥ 1) just
increments and returns `true` with no filesystem traffic. Otherwise each
loop iteration: read the link — if it exists and its recorded owner is not
alive (`os.path.isdir('/proc/<pid>')` is the `alive` oracle), acquire the
secondary lock `<filename>.lock`, unlink the stale entry, release the
secondary lock; then attempt `os.symlink(repr(pid), filename)` — on success
increment the counter and return `true`; on `EEXIST`, return `false` in
non-blocking mode or sleep one second and retry. `none` models fuel
exhaustion (an unbounded blocking wait). -/
def lfAcquire (alive : String → Bool) :
    Nat → Bool → LockSt → LinkSys → Option (Bool × LockSt × LinkSys × List FsOp)
  | 0, _, _, _ => none
  | fuel + 1, block, ls, m =>
    if ls.count > 0 then some (true, { ls with count := ls.count + 1 }, m, [])
    else
      let stale : Option (LinkSys × List FsOp) :=
        match lsLookup m ls.filename with
        | none => some (m, [])
        | some lockPid =>
          if alive lockPid then some (m, [])
          else
            match lfAcquire alive fuel true
                ⟨ls.filename ++ ".lock", ls.pid, 0⟩ m with
            | none => none
            | some (_, sub, m1, tr1) =>
              let m2 := lsRemove m1 ls.filename
              match lfRelease sub m2 with
              | none => none
              | some (_, m3, tr2) =>
                some (m3, tr1 ++ .unlink ls.filename :: tr2)
      match stale with
      | none => none
      | some (m4, tr) =>
        match lsLookup m4 ls.filename with
        | some _ =>
          if block then
            match lfAcquire alive fuel block ls m4 with
            | none => none
            | some (ok, ls2, m5, tr3) => some (ok, ls2, m5, tr ++ tr3)
          else some (false, ls, m4, tr)
        | none =>
          some (true, { ls with count := ls.count + 1 },
                lsAdd m4 ls.filename (reprPid ls.pid),
                tr ++ [.symlink ls.filename (reprPid ls.pid)])

/-! ## Time round-trip lemmas -/

lemma daysInMonth_le (y m : Nat) : daysInMonth y m ≤ 31 := by
  unfold daysInMonth
  split
  · split <;> omega
  · split <;> omega

lemma digitVal_dChar (k : Nat) (hk : k ≤ 9) : digitVal (dChar k) = some k := by
  interval_cases k <;> decide

lemma lit_cons (c : Char) (rest : List Char) : lit c (c :: rest) = some rest := by
  simp [lit]

lemma parseY4_pad (y : Nat) (hy : y ≤ 9999) (rest : List Char) :
    parseY4 (pad4 y ++ rest) = some (y, rest) := by
  have e1 : y / 1000 ≤ 9 := by omega
  have e2 : y / 100 % 10 ≤ 9 := by omega
  have e3 : y / 10 % 10 ≤ 9 := by omega
  have e4 : y % 10 ≤ 9 := by omega
  simp [pad4, parseY4, digitVal_dChar _ e1, digitVal_dChar _ e2,
        digitVal_dChar _ e3, digitVal_dChar _ e4]
  omega

lemma parseNum_pad2 (lo2 hi2 lo1 n : Nat) (h1 : lo2 ≤ n) (h2 : n ≤ hi2)
    (hn : n ≤ 99) (rest : List Char) :
    parseNum lo2 hi2 lo1 (pad2 n ++ rest) = some (n, rest) := by
  have e1 : n / 10 ≤ 9 := by omega
  have e2 : n % 10 ≤ 9 := by omega
  have hv : 10 * (n / 10) + n % 10 = n := by omega
  simp [pad2, parseNum, digitVal_dChar _ e1, digitVal_dChar _ e2, hv, h1, h2]

/-- Round-trip of the two time functions on any value the `datetime`
constructor accepts. -/
lemma parse_format_roundtrip (d : DT) (h : d.validB = true) :
    parse_time (format_time d) = some d := by
  obtain ⟨y, mo, da, hh, mi, se⟩ := d
  have hb := h
  simp only [DT.validB, Bool.and_eq_true, decide_eq_true_eq] at hb
  obtain ⟨⟨⟨⟨⟨⟨⟨⟨h1, h2⟩, h3⟩, h4⟩, h5⟩, h6⟩, h7⟩, h8⟩, h9⟩ := hb
  have hda31 : da ≤ 31 := le_trans h6 (daysInMonth_le _ _)
  have hfmt : (format_time ⟨y, mo, da, hh, mi, se⟩).data
      = fmtChars ⟨y, mo, da, hh, mi, se⟩ := rfl
  rw [parse_time, hfmt]
  have hz : (fmtChars ⟨y, mo, da, hh, mi, se⟩).getLast? = some 'Z' := by
    simp [fmtChars, pad4, pad2]
  rw [if_pos hz]
  show strptimeZ (pad4 y ++ '-' :: (pad2 mo ++ '-' :: (pad2 da ++
    'T' :: (pad2 hh ++ ':' :: (pad2 mi ++ ':' :: (pad2 se ++ ['Z']))))))
    = some ⟨y, mo, da, hh, mi, se⟩
  rw [strptimeZ, parseY4_pad y h2]
  simp only [Option.bind, lit_cons]
  rw [parseNum_pad2 1 12 1 mo h3 h4 (by omega)]
  simp only [Option.bind, lit_cons]
  rw [parseNum_pad2 1 31 1 da h5 hda31 (by omega)]
  simp only [Option.bind, lit_cons]
  rw [parseNum_pad2 0 23 0 hh (by omega) h7 (by omega)]
  simp only [Option.bind, lit_cons]
  rw [parseNum_pad2 0 59 0 mi (by omega) h8 (by omega)]
  simp only [Option.bind, lit_cons]
  rw [parseNum_pad2 0 61 0 se (by omega) (by omega) (by omega)]
  simp only [Option.bind, lit_cons]
  simp [h]

/-- C10: for every datetime value `d` with zero microseconds (any value the
`datetime` constructor accepts), `parse_time (format_time d) = d`:
formatting with `format_time` and parsing the result with `parse_time` is
the identity, so the watermark persisted by `update` is recovered exactly
on the next run. -/
theorem c10_time_roundtrip (d : DT) (h : d.validB = true) :
    parse_time (format_time d) = some d :=
  parse_format_roundtrip d h

theorem c10_witness :
    DT.validB ⟨2020, 5, 7, 12, 34, 56⟩ = true ∧
    parse_time (format_time ⟨2020, 5, 7, 12, 34, 56⟩)
      = some ⟨2020, 5, 7, 12, 34, 56⟩ :=
  ⟨by decide, c10_time_roundtrip ⟨2020, 5, 7, 12, 34, 56⟩ (by decide)⟩

/-- C1: for every fetch via `GithubGet.get`, a response (or `HTTPError`)
with status 403 while the last-observed remaining quota (after reading the
response's own rate-limit headers) equals 0 is treated as expected
throttling: the iteration loops back (`continue`) and `getRun` retries the
same URL with the next response rather than failing. A 403 with
last-observed remaining quota not 0, and any status other than 200 or 403,
raises a fatal `RuntimeError` that is not retried. -/
theorem c1_get_403_classification {α : Type} (st : GState) (r : Resp α) :
    (r.code = 403 → (observe st r).remaining = 0 →
      getIter st r = (observe st r, .retry)) ∧
    (r.code = 403 → (observe st r).remaining ≠ 0 →
      getIter st r = (observe st r, .fatal)) ∧
    (r.code ≠ 200 → r.code ≠ 403 → getIter st r = (st, .fatal)) ∧
    (∀ st2 rs, getIter st r = (st2, .retry) →
      getRun st (r :: rs) = getRun st2 rs) ∧
    (∀ st2 rs, getIter st r = (st2, .fatal) →
      getRun st (r :: rs) = some (.fatal st2)) := by
  refine ⟨?_, ?_, ?_, ?_, ?_⟩
  · intro h403 hrem
    cases hb : r.body <;> simp [getIter, h403, hb, hrem]
  · intro h403 hrem
    cases hb : r.body <;> simp [getIter, h403, hb, hrem]
  · intro hne200 hne403
    simp [getIter, hne200, hne403]
  · intro st2 rs hit
    simp [getRun, hit]
  · intro st2 rs hit
    simp [getRun, hit]

theorem c1_witness :
    getIter (⟨7, 99⟩ : GState)
      (⟨403, some 0, none, none, none⟩ : Resp (List Nat))
      = (⟨0, 99⟩, .retry) ∧
    getIter (⟨0, 99⟩ : GState)
      (⟨403, some 3, none, none, none⟩ : Resp (List Nat))
      = (⟨3, 99⟩, .fatal) ∧
    getIter (⟨5, 99⟩ : GState)
      (⟨500, none, none, none, none⟩ : Resp (List Nat))
      = (⟨5, 99⟩, .fatal) ∧
    getRun (⟨7, 99⟩ : GState)
      [(⟨403, some 0, none, none, none⟩ : Resp (List Nat)),
       ⟨200, some 4, none, none, some [11]⟩]
      = some (.success [11] none ⟨4, 99⟩) := by
  refine ⟨?_, ?_, ?_, ?_⟩
  · exact (c1_get_403_classification _ _).1 rfl (by decide)
  · exact (c1_get_403_classification _ _).2.1 rfl (by decide)
  · exact (c1_get_403_classification _ _).2.2.1 (by decide) (by decide)
  · exact ((c1_get_403_classification _ _).2.2.2.1 ⟨0, 99⟩ _ (by decide)).trans
      (by decide)

/-! ## Wait-loop lemmas -/

lemma throttleAux_ge_now (rem reset : Nat) :
    ∀ fuel now, now ≤ (throttleAux rem reset fuel now).1 := by
  intro fuel
  induction fuel with
  | zero => intro now; simp [throttleAux]
  | succ fuel ih =>
    intro now
    simp only [throttleAux]
    split
    · split
      · simp
      · exact le_trans (Nat.le_add_right _ _) (ih _)
    · simp

lemma throttleAux_reaches (reset : Nat) :
    ∀ fuel now, reset ≤ now + fuel → reset ≤ (throttleAux 0 reset fuel now).1 := by
  intro fuel
  induction fuel with
  | zero => intro now h; simpa [throttleAux] using h
  | succ fuel ih =>
    intro now h
    simp only [throttleAux]
    split
    · rename_i hc
      split
      · rename_i hs; omega
      · rename_i hs
        exact ih _ (by omega)
    · rename_i hc
      simp only [true_and, not_lt] at hc
      simpa using hc

lemma throttle_ge_reset (reset now : Nat) : reset ≤ (throttle 0 reset now).1 :=
  throttleAux_reaches reset _ now (by omega)

lemma throttle_ge_now (rem reset now : Nat) : now ≤ (throttle rem reset now).1 :=
  throttleAux_ge_now rem reset _ now

lemma throttleAux_sleeps (rem reset : Nat) :
    ∀ fuel now p, p ∈ (throttleAux rem reset fuel now).2 →
      p.2 = min (5 * 60) p.1 ∧ 0 < p.2 ∧ p.2 ≤ 5 * 60 := by
  intro fuel
  induction fuel with
  | zero => intro now p hp; simp [throttleAux] at hp
  | succ fuel ih =>
    intro now p hp
    simp only [throttleAux] at hp
    split at hp
    · split at hp
      · simp at hp
      · rename_i hc hs
        simp only [List.mem_cons] at hp
        rcases hp with hp | hp
        · subst hp
          refine ⟨rfl, ?_, Nat.min_le_left _ _⟩
          have : 0 < reset + 5 - now := by omega
          omega
        · exact ih _ _ hp
    · simp at hp

lemma throttleAux_exit (rem reset : Nat) (fuel now : Nat) (h : reset ≤ now) :
    throttleAux rem reset fuel now = (now, []) := by
  cases fuel with
  | zero => rfl
  | succ fuel =>
    simp only [throttleAux]
    rw [if_neg]
    omega

lemma getTimed_times_ge {α : Type} (rs : List (Resp α)) :
    ∀ st now t, t ∈ (getTimed st now rs).1 → now ≤ t := by
  induction rs with
  | nil => intro st now t ht; simp [getTimed] at ht
  | cons r rs ih =>
    intro st now t ht
    rcases hit : getIter st r with ⟨st2, out⟩
    cases out <;> simp only [getTimed, hit, List.mem_cons] at ht
    · rcases ht with ht | ht
      · exact ht ▸ throttle_ge_now _ _ _
      · simp at ht
    · rcases ht with ht | ht
      · exact ht ▸ throttle_ge_now _ _ _
      · exact le_trans (throttle_ge_now _ _ _) (ih _ _ _ ht)
    · rcases ht with ht | ht
      · exact ht ▸ throttle_ge_now _ _ _
      · simp at ht

/-- C2: for every call to `GithubGet.get` with rate-limit state
`remaining = 0` and reset epoch `now + N` (`N > 0`), no HTTP request is
issued before `now + N`; each individual sleep is `min (5*60) s` for the
recomputed remaining wait `s` (so capped at 5 minutes), positive, with one
progress notification per sleep (the recorded pairs); and the wait loop
exits immediately, sleeping zero times, once the reset epoch has passed,
whatever the remaining quota. -/
theorem c2_throttle_backoff {α : Type} (st : GState) (now N : Nat)
    (rs : List (Resp α)) (h0 : st.remaining = 0) (hr : st.reset = now + N)
    (_hN : 0 < N) :
    (∀ t ∈ (getTimed st now rs).1, now + N ≤ t) ∧
    (∀ p ∈ (throttle st.remaining st.reset now).2,
       p.2 = min (5 * 60) p.1 ∧ 0 < p.2 ∧ p.2 ≤ 5 * 60) ∧
    (∀ rem t, st.reset ≤ t → throttle rem st.reset t = (t, [])) := by
  refine ⟨?_, ?_, ?_⟩
  · intro t ht
    cases rs with
    | nil => simp [getTimed] at ht
    | cons r rs =>
      have ht0 : now + N ≤ (throttle st.remaining st.reset now).1 := by
        rw [h0, hr]
        exact throttle_ge_reset _ _
      rcases hit : getIter st r with ⟨st2, out⟩
      cases out <;> simp only [getTimed, hit, List.mem_cons] at ht
      · rcases ht with ht | ht
        · omega
        · simp at ht
      · rcases ht with ht | ht
        · omega
        · exact le_trans ht0 (getTimed_times_ge _ _ _ _ ht)
      · rcases ht with ht | ht
        · omega
        · simp at ht
  · intro p hp
    exact throttleAux_sleeps _ _ _ _ _ hp
  · intro rem t h
    unfold throttle
    exact throttleAux_exit _ _ _ _ h

theorem c2_witness :
    (0 : Nat) + 7 ≤ 12 ∧
    ((12 : Nat) = min (5 * 60) 12 ∧ 0 < (12 : Nat) ∧ (12 : Nat) ≤ 5 * 60) ∧
    throttle 3 7 9 = (9, []) := by
  refine ⟨?_, ?_, ?_⟩
  · exact (c2_throttle_backoff (⟨0, 7⟩ : GState) 0 7
      [(⟨200, some 5, none, none, some [1]⟩ : Resp (List Nat))]
      rfl rfl (by decide)).1 12 (by decide)
  · exact (c2_throttle_backoff (⟨0, 7⟩ : GState) 0 7
      [(⟨200, some 5, none, none, some [1]⟩ : Resp (List Nat))]
      rfl rfl (by decide)).2.1 (12, 12) (by decide)
  · exact (c2_throttle_backoff (⟨0, 7⟩ : GState) 0 7
      [(⟨200, some 5, none, none, some [1]⟩ : Resp (List Nat))]
      rfl rfl (by decide)).2.2 3 9 (by decide)

/-- C3: for every call to `PullCache.update`, the new watermark is the
clock value `now` captured before the fetch begins (the fetch itself runs
with the old watermark `prev`), the final cache stores exactly
`format_time now` as `last_updated`, parsing the stored watermark back
recovers `now`, and — the clock being at or past the previously stored
watermark — the stored watermark after `update` is ≥ the watermark before,
whatever the fetch returned, including zero items. -/
theorem c3_watermark (project : String) (env : Env) (fuel : Nat)
    (now prev : DT) (c cOut : Cache) (st stOut : GState)
    (hu : update project env fuel now c st = some (cOut, stOut))
    (hv : now.validB = true)
    (hp : parse_time (c.last_updated.getD "1970-1-1T00:00:00Z") = some prev)
    (hclock : dtKey prev ≤ dtKey now) :
    cOut.last_updated = some (format_time now) ∧
    parse_time (cOut.last_updated.getD "1970-1-1T00:00:00Z") = some now ∧
    dtKey prev ≤ dtKey now := by
  simp only [update, hp] at hu
  cases hg : pc_get env project st prev fuel with
  | none => rw [hg] at hu; simp at hu
  | some res =>
    rcases res with ⟨np, st2⟩
    rw [hg] at hu
    simp only [Option.some.injEq, Prod.mk.injEq] at hu
    obtain ⟨hc, hst⟩ := hu
    subst hc
    exact ⟨rfl, by simpa using parse_format_roundtrip now hv, hclock⟩

theorem c3_witness :
    update "p" ⟨fun _ => [respOk ([] : List Pull) none], fun _ => []⟩ 2
        ⟨2024, 1, 2, 3, 4, 5⟩ ⟨none, none⟩ ⟨1, 0⟩
      = some (⟨some (format_time ⟨2024, 1, 2, 3, 4, 5⟩), some []⟩, ⟨1, 0⟩) ∧
    (⟨some (format_time ⟨2024, 1, 2, 3, 4, 5⟩), some []⟩ : Cache).last_updated
      = some (format_time ⟨2024, 1, 2, 3, 4, 5⟩) ∧
    parse_time ((⟨some (format_time ⟨2024, 1, 2, 3, 4, 5⟩),
        some []⟩ : Cache).last_updated.getD "1970-1-1T00:00:00Z")
      = some ⟨2024, 1, 2, 3, 4, 5⟩ ∧
    dtKey ⟨1970, 1, 1, 0, 0, 0⟩ ≤ dtKey ⟨2024, 1, 2, 3, 4, 5⟩ := by
  have h := c3_watermark "p"
    ⟨fun _ => [respOk ([] : List Pull) none], fun _ => []⟩ 2
    ⟨2024, 1, 2, 3, 4, 5⟩ ⟨1970, 1, 1, 0, 0, 0⟩ ⟨none, none⟩
    (⟨some (format_time ⟨2024, 1, 2, 3, 4, 5⟩), some []⟩ : Cache)
    ⟨1, 0⟩ ⟨1, 0⟩ (by decide) (by decide) (by decide) (by decide)
  exact ⟨by decide, h.1, h.2.1, h.2.2⟩

/-! ## Dictionary-merge lemmas -/

lemma dictLookup_dictInsert_self (m : List (String × Pull)) (k : String)
    (v : Pull) : dictLookup (dictInsert m k v) k = some v := by
  induction m with
  | nil => simp [dictInsert, dictLookup]
  | cons kv rest ih =>
    by_cases h : kv.1 = k
    · simp [dictInsert, h, dictLookup]
    · simp [dictInsert, h, dictLookup, ih]

lemma dictInsert_keys (m : List (String × Pull)) (k : String) (v : Pull) :
    (dictInsert m k v).map Prod.fst =
      if k ∈ m.map Prod.fst then m.map Prod.fst
      else m.map Prod.fst ++ [k] := by
  induction m with
  | nil => simp [dictInsert]
  | cons kv rest ih =>
    by_cases h : kv.1 = k
    · simp [dictInsert, h]
    · have hne : ¬ (k = kv.1) := fun he => h he.symm
      by_cases hk : k ∈ rest.map Prod.fst
      · simp [dictInsert, h, ih, hk, hne]
      · simp [dictInsert, h, ih, hk, hne]

lemma dictInsert_nodup (m : List (String × Pull)) (k : String) (v : Pull)
    (h : (m.map Prod.fst).Nodup) : ((dictInsert m k v).map Prod.fst).Nodup := by
  rw [dictInsert_keys]
  split
  · exact h
  · rename_i hk
    simp [List.nodup_append, h, hk]

lemma foldl_dictInsert_nodup (ps : List Pull) :
    ∀ m, (m.map Prod.fst).Nodup →
      ((ps.foldl (fun acc p => dictInsert acc (toString p.number) p) m).map
        Prod.fst).Nodup := by
  induction ps with
  | nil => intro m h; simpa
  | cons p ps ih =>
    intro m h
    exact ih _ (dictInsert_nodup _ _ _ h)

/-- C4: `PullCache.update` keys merged records by the string form of their
number, so a stored mapping with unique identifiers keeps unique
identifiers; the merged mapping is exactly the `dictInsert` fold of the
fetched records over the old mapping; and inserting a record under an
identifier that is already present replaces the stored record wholesale —
the lookup afterwards returns exactly the new record, so no field of the
older version survives. -/
theorem c4_merge_lww :
    (∀ (project : String) (env : Env) (fuel : Nat) (now : DT) (c cOut : Cache)
       (st stOut : GState),
      update project env fuel now c st = some (cOut, stOut) →
      ((c.pulls.getD []).map Prod.fst).Nodup →
      ((cOut.pulls.getD []).map Prod.fst).Nodup) ∧
    (∀ (project : String) (env : Env) (fuel : Nat) (now : DT) (c cOut : Cache)
       (st stOut : GState) (prev : DT) (np : List Pull) (st2 : GState),
      update project env fuel now c st = some (cOut, stOut) →
      parse_time (c.last_updated.getD "1970-1-1T00:00:00Z") = some prev →
      pc_get env project st prev fuel = some (np, st2) →
      cOut.pulls = some (np.foldl
        (fun acc p => dictInsert acc (toString p.number) p) (c.pulls.getD []))) ∧
    (∀ (m : List (String × Pull)) (k : String) (vOld vNew : Pull),
      dictLookup m k = some vOld →
      dictLookup (dictInsert m k vNew) k = some vNew) := by
  refine ⟨?_, ?_, ?_⟩
  · intro project env fuel now c cOut st stOut hu hnd
    cases hp : parse_time (c.last_updated.getD "1970-1-1T00:00:00Z") with
    | none => simp only [update, hp] at hu; simp at hu
    | some prev =>
      simp only [update, hp] at hu
      cases hg : pc_get env project st prev fuel with
      | none => rw [hg] at hu; simp at hu
      | some res =>
        rcases res with ⟨np, st2⟩
        rw [hg] at hu
        simp only [Option.some.injEq, Prod.mk.injEq] at hu
        obtain ⟨hc, hst⟩ := hu
        subst hc
        simpa using foldl_dictInsert_nodup np _ hnd
  · intro project env fuel now c cOut st stOut prev np st2 hu hp hg
    simp only [update, hp, hg] at hu
    simp only [Option.some.injEq, Prod.mk.injEq] at hu
    obtain ⟨hc, hst⟩ := hu
    subst hc
    rfl
  · intro m k vOld vNew _
    exact dictLookup_dictInsert_self m k vNew

def pOldW : Pull := ⟨1, true, "closed", "e", "u", none, none, none,
  [("title", "old")]⟩

def pNewW : Pull := ⟨1, true, "closed", "e2", "u2", none, none, none, []⟩

theorem c4_witness :
    (((some [("1", pNewW)] : Option (List (String × Pull))).getD []).map
      Prod.fst).Nodup ∧
    (some [("1", pNewW)] : Option (List (String × Pull)))
      = some ([pNewW].foldl
          (fun acc p => dictInsert acc (toString p.number) p) [("1", pOldW)]) ∧
    dictLookup (dictInsert [("1", pOldW)] "1" pNewW) "1" = some pNewW := by
  refine ⟨?_, ?_, ?_⟩
  · have h := c4_merge_lww.1 "p"
      ⟨fun _ => [respOk [pNewW] none], fun _ => []⟩ 2 ⟨2024, 1, 2, 3, 4, 5⟩
      ⟨none, some [("1", pOldW)]⟩
      ⟨some (format_time ⟨2024, 1, 2, 3, 4, 5⟩), some [("1", pNewW)]⟩
      ⟨1, 0⟩ ⟨1, 0⟩ (by decide) (by decide)
    exact h
  · have h := c4_merge_lww.2.1 "p"
      ⟨fun _ => [respOk [pNewW] none], fun _ => []⟩ 2 ⟨2024, 1, 2, 3, 4, 5⟩
      ⟨none, some [("1", pOldW)]⟩
      ⟨some (format_time ⟨2024, 1, 2, 3, 4, 5⟩), some [("1", pNewW)]⟩
      ⟨1, 0⟩ ⟨1, 0⟩ ⟨1970, 1, 1, 0, 0, 0⟩ [pNewW] ⟨1, 0⟩
      (by decide) (by decide) (by decide)
    exact h
  · exact c4_merge_lww.2.2 [("1", pOldW)] "1" pOldW pNewW (by decide)

/-! ## Atomic-save lemmas -/

lemma fsLookup_fsSet_self (fs : FileSys) (k v : String) :
    fsLookup (fsSet fs k v) k = some v := by
  induction fs with
  | nil => simp [fsSet, fsLookup]
  | cons kv rest ih =>
    by_cases h : kv.1 = k
    · simp [fsSet, h, fsLookup]
    · simp [fsSet, h, fsLookup, ih]

lemma fsLookup_fsSet_ne (fs : FileSys) (k v k2 : String) (h : k ≠ k2) :
    fsLookup (fsSet fs k v) k2 = fsLookup fs k2 := by
  induction fs with
  | nil => simp [fsSet, fsLookup, h]
  | cons kv rest ih =>
    by_cases hk : kv.1 = k
    · simp [fsSet, hk, fsLookup, h, hk ▸ h]
    · by_cases hk2 : kv.1 = k2
      · simp [fsSet, hk, fsLookup, hk2, Ne.symm h]
      · simp [fsSet, hk, fsLookup, hk2, ih]

lemma tmpName_ne (target sfx : String) : tmpName target sfx ≠ target := by
  intro h
  have hlen := congrArg String.length h
  simp [tmpName, String.length_append] at hlen
  have h5 : (".new-" : String).length = 5 := rfl
  rw [h5] at hlen
  omega

/-- C5: `PullCache.save` writes the serialized snapshot to a temporary file
in the same directory as the target (its path is the target's path plus a
`.new-` suffix) and then renames it over the target. Every injected failure
after the temp-write begins but before the rename leaves the previously
persisted snapshot byte-for-byte unchanged (hence still parseable) and
propagates to the caller; the unfailed run replaces the target with the
full serialized snapshot. -/
theorem c5_save_atomic (fs : FileSys) (target sfx content : String)
    (fp : FailPoint) :
    (save fs target sfx content (some fp)).2 = false ∧
    fsLookup (save fs target sfx content (some fp)).1 target
      = fsLookup fs target ∧
    (save fs target sfx content none).2 = true ∧
    fsLookup (save fs target sfx content none).1 target = some content := by
  have hne : tmpName target sfx ≠ target := tmpName_ne target sfx
  refine ⟨?_, ?_, ?_, ?_⟩
  · cases fp <;> rfl
  · cases fp <;>
      simp [save, fsLookup_fsSet_ne _ _ _ _ hne]
  · rfl
  · simp [save, fsRename, fsLookup_fsSet_self]

/-! ## Lock lemmas -/

lemma lsLookup_lsRemove_self (m : LinkSys) (k : String) :
    lsLookup (lsRemove m k) k = none := by
  induction m with
  | nil => simp [lsRemove, lsLookup]
  | cons kv rest ih =>
    by_cases h : kv.1 = k
    · simpa [lsRemove, List.filter, h] using ih
    · simpa [lsRemove, List.filter, h, lsLookup] using ih

lemma lsLookup_lsRemove_ne (m : LinkSys) (k k2 : String) (h : k2 ≠ k) :
    lsLookup (lsRemove m k) k2 = lsLookup m k2 := by
  induction m with
  | nil => simp [lsRemove, lsLookup]
  | cons kv rest ih =>
    by_cases hk : kv.1 = k
    · simpa [lsRemove, List.filter, hk, lsLookup, Ne.symm h] using ih
    · by_cases hk2 : kv.1 = k2
      · simp [lsRemove, List.filter, hk, lsLookup, hk2, h]
      · simpa [lsRemove, List.filter, hk, lsLookup, hk2] using ih

lemma lsLookup_lsAdd_self (m : LinkSys) (k v : String)
    (h : lsLookup m k = none) : lsLookup (lsAdd m k v) k = some v := by
  induction m with
  | nil => simp [lsAdd, lsLookup]
  | cons kv rest ih =>
    by_cases hk : kv.1 = k
    · simp [lsLookup, hk] at h
    · simp only [lsLookup, hk, if_neg] at h
      simpa [lsAdd, lsLookup, hk] using ih h

lemma lsLookup_lsAdd_ne (m : LinkSys) (k v k2 : String) (h : k ≠ k2) :
    lsLookup (lsAdd m k v) k2 = lsLookup m k2 := by
  induction m with
  | nil => simp [lsAdd, lsLookup, h]
  | cons kv rest ih =>
    by_cases hk : kv.1 = k2
    · simp [lsAdd, lsLookup, hk]
    · simpa [lsAdd, lsLookup, hk] using ih

lemma lockName_ne (f : String) : f ≠ f ++ ".lock" := by
  intro h
  have hlen := congrArg String.length h
  simp [String.length_append] at hlen
  have h5 : (".lock" : String).length = 5 := rfl
  rw [h5] at hlen
  omega

/-- C6: for every `LockFile` already holding the lock (counter ≥ 1), a
further `acquire` just increments the counter and returns `true`, with an
empty list of filesystem operations; `release` at counter 1 drops the
counter to zero and removes the lock's filesystem entry; `release` at
counter ≥ 2 only decrements, touching nothing on the filesystem; and
`release` at counter 0 raises the `RuntimeError` (`none`), changing
neither counter nor filesystem. -/
theorem c6_lock_reentrant (alive : String → Bool) (fuel : Nat) (block : Bool)
    (ls : LockSt) (m : LinkSys) :
    (0 < ls.count →
      lfAcquire alive (fuel + 1) block ls m
        = some (true, { ls with count := ls.count + 1 }, m, [])) ∧
    (ls.count = 1 → ∃ m2 tr,
      lfRelease ls m = some ({ ls with count := 0 }, m2, tr) ∧
      lsLookup m2 ls.filename = none ∧
      (∀ p, p ≠ ls.filename → lsLookup m2 p = lsLookup m p)) ∧
    (2 ≤ ls.count →
      lfRelease ls m = some ({ ls with count := ls.count - 1 }, m, [])) ∧
    (ls.count = 0 → lfRelease ls m = none) := by
  refine ⟨?_, ?_, ?_, ?_⟩
  · intro hc
    simp [lfAcquire, hc]
  · intro hc
    cases hf : lsLookup m ls.filename with
    | none =>
      exact ⟨m, [], by simp [lfRelease, hc, hf], hf, fun p _ => rfl⟩
    | some t =>
      refine ⟨lsRemove m ls.filename, [.unlink ls.filename],
        by simp [lfRelease, hc, hf], lsLookup_lsRemove_self _ _,
        fun p hp => lsLookup_lsRemove_ne _ _ _ hp⟩
  · intro hc
    have h1 : ¬ ls.count = 1 := by omega
    have h2 : ¬ ls.count < 1 := by omega
    simp [lfRelease, h1, h2]
  · intro hc
    simp [lfRelease, hc]

theorem c6_witness :
    lfAcquire (fun _ => true) 1 true ⟨"L", 42, 1⟩ [("L", "42")]
      = some (true, ⟨"L", 42, 2⟩, [("L", "42")], []) ∧
    (∃ m2 tr,
      lfRelease ⟨"L", 42, 1⟩ [("L", "42")] = some (⟨"L", 42, 0⟩, m2, tr) ∧
      lsLookup m2 "L" = none ∧
      (∀ p, p ≠ "L" → lsLookup m2 p = lsLookup [("L", "42")] p)) ∧
    lfRelease ⟨"L", 42, 2⟩ [("L", "42")]
      = some (⟨"L", 42, 1⟩, [("L", "42")], []) ∧
    lfRelease ⟨"L", 42, 0⟩ [("L", "42")] = none := by
  refine ⟨?_, ?_, ?_, ?_⟩
  · exact (c6_lock_reentrant (fun _ => true) 0 true ⟨"L", 42, 1⟩
      [("L", "42")]).1 (by decide)
  · exact (c6_lock_reentrant (fun _ => true) 0 true ⟨"L", 42, 1⟩
      [("L", "42")]).2.1 rfl
  · exact (c6_lock_reentrant (fun _ => true) 0 true ⟨"L", 42, 2⟩
      [("L", "42")]).2.2.1 (by decide)
  · exact (c6_lock_reentrant (fun _ => true) 0 true ⟨"L", 42, 0⟩
      [("L", "42")]).2.2.2 rfl

/-- C7: for every filesystem state whose lock entry records an owner
process that is not alive, a fresh `acquire` (counter 0) succeeds without
surfacing any error: its filesystem trace is exactly — create the secondary
lock `<lockfile>.lock`, delete the stale entry under its protection,
release the secondary lock, then create the lock entry for the caller —
and afterwards the lock entry records the caller's pid and the secondary
lock is gone. -/
theorem c7_stale_reclaim (alive : String → Bool) (fuel : Nat) (block : Bool)
    (ls : LockSt) (m : LinkSys) (deadPid : String)
    (h1 : lsLookup m ls.filename = some deadPid)
    (h2 : alive deadPid = false)
    (h3 : lsLookup m (ls.filename ++ ".lock") = none)
    (h4 : ls.count = 0) :
    ∃ m2,
      lfAcquire alive (fuel + 2) block ls m
        = some (true, { ls with count := 1 }, m2,
            [.symlink (ls.filename ++ ".lock") (reprPid ls.pid),
             .unlink ls.filename,
             .unlink (ls.filename ++ ".lock"),
             .symlink ls.filename (reprPid ls.pid)]) ∧
      lsLookup m2 ls.filename = some (reprPid ls.pid) ∧
      lsLookup m2 (ls.filename ++ ".lock") = none := by
  have e1 : lsLookup
      (lsRemove (lsAdd m (ls.filename ++ ".lock") (reprPid ls.pid))
        ls.filename) (ls.filename ++ ".lock") = some (reprPid ls.pid) := by
    rw [lsLookup_lsRemove_ne _ _ _ (Ne.symm (lockName_ne ls.filename))]
    exact lsLookup_lsAdd_self _ _ _ h3
  have e2 : lsLookup
      (lsRemove (lsRemove (lsAdd m (ls.filename ++ ".lock") (reprPid ls.pid))
        ls.filename) (ls.filename ++ ".lock")) ls.filename = none := by
    rw [lsLookup_lsRemove_ne _ _ _ (lockName_ne ls.filename)]
    exact lsLookup_lsRemove_self _ _
  refine ⟨lsAdd
      (lsRemove (lsRemove (lsAdd m (ls.filename ++ ".lock") (reprPid ls.pid))
        ls.filename) (ls.filename ++ ".lock")) ls.filename (reprPid ls.pid),
    ?_, lsLookup_lsAdd_self _ _ _ e2, ?_⟩
  · simp [lfAcquire, lfRelease, h1, h2, h3, h4, e1, e2]
  · rw [lsLookup_lsAdd_ne _ _ _ _ (lockName_ne ls.filename)]
    exact lsLookup_lsRemove_self _ _

theorem c7_witness :
    ∃ m2,
      lfAcquire (fun _ => false) 2 false ⟨"L", 42, 0⟩ [("L", "999")]
        = some (true, ⟨"L", 42, 1⟩, m2,
            [.symlink "L.lock" (reprPid 42), .unlink "L",
             .unlink "L.lock", .symlink "L" (reprPid 42)]) ∧
      lsLookup m2 "L" = some (reprPid 42) ∧
      lsLookup m2 "L.lock" = none :=
  c7_stale_reclaim (fun _ => false) 0 false ⟨"L", 42, 0⟩ [("L", "999")] "999"
    (by decide) rfl (by decide) rfl

/-! ## Pagination -/

/-- Specification-side description of one server page: its URL, its items,
and the next-page link it advertises. -/
structure PageSpec (α : Type) where
  url : String
  items : List α
  next : Option String
deriving Repr

/-- A finite chain of pages starting at URL `u` and linked by `next`:
each page names the following page's URL and the last page has no link
(URLs non-empty so the page loop runs). -/
def chainLinkedB {α : Type} : String → List (PageSpec α) → Bool
  | _, [] => false
  | u, [p] => p.url == u && p.next == none
  | u, p :: q :: rest =>
    p.url == u && p.next == some q.url && chainLinkedB q.url (q :: rest)

lemma get_multipage_chain {α : Type} (env : String → List (Resp (List α))) :
    ∀ (ps : List (PageSpec α)) (u : String) (st : GState) (fuel : Nat),
      chainLinkedB u ps = true →
      (∀ p ∈ ps, env p.url = [respOk p.items p.next] ∧ p.url ≠ "") →
      ps.length ≤ fuel →
      get_multipage env fuel st (some u)
        = some ((ps.map PageSpec.items).flatten, st) := by
  intro ps
  induction ps with
  | nil =>
    intro u st fuel hchain _ _
    simp [chainLinkedB] at hchain
  | cons p tail ih =>
    intro u st fuel hchain henv hfuel
    cases fuel with
    | zero => simp at hfuel
    | succ fuel =>
      obtain ⟨hen, hne⟩ := henv p (List.mem_cons_self p tail)
      cases tail with
      | nil =>
        simp only [chainLinkedB, Bool.and_eq_true, beq_iff_eq] at hchain
        obtain ⟨hurl, hnext⟩ := hchain
        subst hurl
        simp [get_multipage, urlCont, hne, hen, getRun, getIter, respOk,
              observe, hnext]
      | cons q rest =>
        simp only [chainLinkedB, Bool.and_eq_true, beq_iff_eq] at hchain
        obtain ⟨⟨hurl, hnext⟩, hchain2⟩ := hchain
        subst hurl
        have hrec := ih q.url st fuel hchain2
          (fun x hx => henv x (List.mem_cons_of_mem _ hx))
          (by simp only [List.length_cons] at hfuel ⊢; omega)
        simp [get_multipage, urlCont, hne, hen, getRun, getIter, respOk,
              observe, hnext, hrec]

def pW1 : Pull := ⟨1, true, "closed", "e1", "u1", none, none, none, []⟩

def pW2 : Pull := ⟨2, true, "closed", "e2", "u2", none, none, none, []⟩

def pW3 : Pull := ⟨3, true, "closed", "e3", "u3", none, none, none, []⟩

/-- The two-page remote list of the end-to-end scenario: page 1 at the
listing URL carries two records and links to page 2; page 2 carries one
record and no further link. -/
def env8 : Env :=
  ⟨fun u =>
    if u = listUrl "proj" ⟨1970, 1, 1, 0, 0, 0⟩ then
      [respOk [pW1, pW2] (some "page2")]
    else if u = "page2" then [respOk [pW3] none]
    else [],
   fun _ => []⟩

/-- C8: for every starting URL and finite chain of pages linked by `next`,
`get_multipage` returns the concatenation of all page item lists in server
order, fully materialized, stopping exactly at the page with no next link;
and on an empty snapshot against the concrete two-page remote list (two
items then one item), `update` produces a mapping of exactly three entries
keyed by the records' ids with the watermark set to the pre-fetch
timestamp. -/
theorem c8_multipage_concat :
    (∀ (α : Type) (env : String → List (Resp (List α)))
       (ps : List (PageSpec α)) (u : String) (st : GState) (fuel : Nat),
      chainLinkedB u ps = true →
      (∀ p ∈ ps, env p.url = [respOk p.items p.next] ∧ p.url ≠ "") →
      ps.length ≤ fuel →
      get_multipage env fuel st (some u)
        = some ((ps.map PageSpec.items).flatten, st)) ∧
    update "proj" env8 4 ⟨2024, 6, 1, 12, 0, 0⟩ ⟨none, none⟩ ⟨9, 0⟩
      = some (⟨some (format_time ⟨2024, 6, 1, 12, 0, 0⟩),
          some [("1", pW1), ("2", pW2), ("3", pW3)]⟩, ⟨9, 0⟩) := by
  constructor
  · intro α env ps u st fuel h1 h2 h3
    exact get_multipage_chain env ps u st fuel h1 h2 h3
  · decide

theorem c8_witness :
    get_multipage
      (fun u =>
        if u = "a" then [respOk ([10, 20] : List Nat) (some "b")]
        else if u = "b" then [respOk ([30] : List Nat) none]
        else [])
      2 ⟨9, 0⟩ (some "a")
      = some ([10, 20, 30], ⟨9, 0⟩) := by
  have h := c8_multipage_concat.1 Nat
    (fun u =>
      if u = "a" then [respOk ([10, 20] : List Nat) (some "b")]
      else if u = "b" then [respOk ([30] : List Nat) none]
      else [])
    [⟨"a", [10, 20], some "b"⟩, ⟨"b", [30], none⟩] "a" ⟨9, 0⟩ 2
    (by decide)
    (by intro p hp
        simp only [List.mem_cons, List.not_mem_nil, or_false] at hp
        rcases hp with hp | hp <;> subst hp <;> exact ⟨rfl, by decide⟩)
    (by decide)
  simpa using h

/-! ## Secondary fetches -/

/-- Specification-side description of attachment when every secondary
endpoint responds with a single plain 200 page of body `f u`: an open
record gets the three sub-collections attached from its URLs; any other
record is left untouched. -/
def attachF (f : String → List Item) (p : Pull) : Pull :=
  if p.state = "open" then
    { p with events := some (f p.events_url),
             commits := some (f (p.pr_url ++ "/commits")),
             reviews := some (f (p.pr_url ++ "/reviews")) }
  else p

lemma attachSubs_simple (env : Env) (f : String → List Item)
    (henv : ∀ u, env.subs u = [respOk (f u) none]) :
    ∀ (ps : List Pull) (st : GState),
      attachSubs env st ps = some (ps.map (attachF f), st) := by
  intro ps
  induction ps with
  | nil => intro st; simp [attachSubs, attachF]
  | cons p ps ih =>
    intro st
    by_cases h : p.state = "open"
    · simp [attachSubs, h, henv, getRun, getIter, respOk, observe, ih, attachF]
    · simp [attachSubs, h, ih, attachF]

/-- A tracked (marker-bearing) record whose state is not `'open'`. -/
def pC : Pull := ⟨5, true, "closed", "e5", "u5", none, none, none, []⟩

/-- C9 counterexample: in an environment whose secondary endpoints have no
successful response at all (every sub-fetch would fail), `PullCache._get`
still succeeds and returns the fetched tracked-type record `pC` for
storage with no event history, commit list or review list attached — so
the claim that every fetched tracked-type item undergoes the secondary
sub-fetches before being stored is false: items whose state is not
`'open'` are stored without any sub-fetch. -/
theorem c9_counterexample :
    pc_get ⟨fun _ => [respOk [pC] none], fun _ => []⟩ "proj" ⟨1, 0⟩
        ⟨1970, 1, 1, 0, 0, 0⟩ 2
      = some ([pC], ⟨1, 0⟩) ∧
    pC.is_pr = true ∧ pC.state ≠ "open" ∧ pC.events = none ∧
    pC.commits = none ∧ pC.reviews = none := by
  decide

/-- C9 (amended): items lacking the tracked-resource marker are filtered
out and not stored; each fetched marker-bearing item whose state is
`'open'` has the secondary sub-fetches (event history, commit list, review
list) performed and their results attached before it is returned for
storage; marker-bearing items in any other state are returned for storage
unchanged, with no sub-fetch. -/
theorem c9_subfetch_open (env : Env) (f : String → List Item)
    (project : String) (st st1 : GState) (since : DT) (fuel : Nat)
    (data : List Pull)
    (henv : ∀ u, env.subs u = [respOk (f u) none])
    (hpages : get_multipage env.pages fuel st (some (listUrl project since))
      = some (data, st1)) :
    pc_get env project st since fuel
      = some ((data.filter (fun p => p.is_pr)).map (attachF f), st1) := by
  simp only [pc_get, hpages]
  exact attachSubs_simple env f henv _ st1

def pOpenW : Pull := ⟨6, true, "open", "eOpen", "uOpen", none, none, none, []⟩

def fW : String → List Item := fun u =>
  if u = "eOpen" then [1] else if u = "uOpen" ++ "/commits" then [2] else [3]

theorem c9_witness :
    pc_get ⟨fun _ => [respOk [pOpenW, pC, ⟨7, false, "open", "x", "y",
          none, none, none, []⟩] none],
        fun u => [respOk (fW u) none]⟩
      "proj" ⟨1, 0⟩ ⟨1970, 1, 1, 0, 0, 0⟩ 2
      = some ([attachF fW pOpenW, attachF fW pC], ⟨1, 0⟩) := by
  have h := c9_subfetch_open
    ⟨fun _ => [respOk [pOpenW, pC, ⟨7, false, "open", "x", "y",
        none, none, none, []⟩] none],
      fun u => [respOk (fW u) none]⟩ fW
    "proj" ⟨1, 0⟩ ⟨1, 0⟩ ⟨1970, 1, 1, 0, 0, 0⟩ 2
    [pOpenW, pC, ⟨7, false, "open", "x", "y", none, none, none, []⟩]
    (fun _ => rfl) (by decide)
  simpa [pOpenW, pC] using h

end GhNW
